import Mathlib

/-!
Shallow embedding of the portable-configuration core of `jules-pytk`
(`src/jules_pytk/config/{base,config,namelists,inputs}.py`), together with
the namelists auto-discovery helper and the ascii input codec.

Conventions of the embedding:
* Python exceptions become the `PyErr` inductive; fallible operations return
  `Except PyErr _`.
* `pathlib.Path` values become `FPath`: an absolute-flag plus a list of
  components (components are produced by splitting on '/', dropping empty and
  "." pieces, exactly as `PurePosixPath` normalises at parse time).
* The filesystem is an association list from absolute, normalised component
  lists to typed file contents; directories are implicit (a directory exists
  when some file lies strictly below it), `mkdir(parents=True, exist_ok=True)`
  is a no-op on this representation.
* numpy arrays become `NDArray` (row-major data as rationals plus an explicit
  shape); floats are idealised as rationals, `"%.5f"` formatting is exact
  rounding to 5 decimal places.
* The f90nml namelist codec is the identity collaborator of the spec: a
  `.nml` file stores the parsed `Namelist` value itself.
-/

namespace JulesPytk

/-- Python exceptions raised by the embedded code.  `invalidPath` models
`jules_pytk.exceptions.InvalidPath` (the `exceptions` module itself is not in
the sources; the class is just an `Exception` subclass).  `ambiguousLocation`
models the bare `Exception` raised by `find_namelists` when more than one
candidate directory is found. -/
inductive PyErr where
  | fileNotFoundError
  | fileExistsError
  | invalidPath
  | indexError
  | valueError
  | typeError
  | keyError
  | assertionError
  | notImplementedError
  | attributeError
  | ambiguousLocation
deriving DecidableEq, Repr

/-! ## Strings and characters -/

/-- Whitespace characters removed by Python's `str.strip()`. -/
def isSpaceChar (c : Char) : Bool :=
  c = ' ' || c = '\t' || c = '\n' || c = '\r' || c = '\x0b' || c = '\x0c'

/-- `str.strip()` on a character list. -/
def stripChars (cs : List Char) : List Char :=
  ((cs.dropWhile isSpaceChar).reverse.dropWhile isSpaceChar).reverse

/-- `str.strip()`. -/
def pyStrip (s : String) : String :=
  String.mk (stripChars s.data)

/-- `str.endswith(suffix)`. -/
def strEndsWith (s suf : String) : Bool :=
  suf.data.isSuffixOf s.data

/-- `str.startswith(pre)`. -/
def strStartsWith (s pre : String) : Bool :=
  pre.data.isPrefixOf s.data

/-! ## Paths -/

/-- Split a character list at a separator character. -/
def splitCharsOn (sep : Char) : List Char → List (List Char)
  | [] => [[]]
  | c :: cs =>
    let rest := splitCharsOn sep cs
    if c = sep then [] :: rest
    else
      match rest with
      | [] => [[c]]
      | piece :: more => (c :: piece) :: more

/-- A `pathlib` path: absolute flag plus components.  Parsing drops empty
components and single-dot components, as `PurePosixPath` does. -/
structure FPath where
  absolute : Bool
  parts : List String
deriving DecidableEq, Repr

/-- `pathlib.Path(s)` for a POSIX path string. -/
def parsePath (s : String) : FPath :=
  { absolute := strStartsWith s "/"
    parts :=
      ((splitCharsOn '/' s.data).map String.mk).filter (fun c => c ≠ "" && c ≠ ".") }

/-- Join components with `'/'` separators. -/
def joinPartsChars : List String → List Char
  | [] => []
  | [a] => a.data
  | a :: rest => a.data ++ '/' :: joinPartsChars rest

/-- `str(path)`. -/
def renderPath (p : FPath) : String :=
  if p.absolute then String.mk ('/' :: joinPartsChars p.parts)
  else if p.parts = [] then "." else String.mk (joinPartsChars p.parts)

/-- Normalise a component list, resolving `".."` against the earlier
components; popping at the root stays at the root (as `"/.."` is `"/"`). -/
def normalizeParts (l : List String) : List String :=
  l.foldl (fun acc c => if c = ".." then acc.dropLast else acc ++ [c]) []

/-- `Path.resolve()` (textual semantics, no symlinks): an absolute path is
normalised, a relative path is joined to the current working directory
`cwd` (given as absolute components) and normalised. -/
def resolveParts (cwd : List String) (p : FPath) : List String :=
  if p.absolute then normalizeParts p.parts else normalizeParts (cwd ++ p.parts)

/-- `Path.suffix`: the extension of the final component (empty when there is
no dot, or when the only dot is the leading character). -/
def lastComponentSuffix (name : String) : String :=
  let cs := name.data
  let tail := (cs.reverse.takeWhile (fun c => c ≠ '.')).reverse
  if tail.length = cs.length then ""            -- no dot at all
  else if tail.length + 1 = cs.length then
    -- the single leading char is the dot: ".hidden" has no suffix
    if cs.length ≥ 2 && tail.length + 1 = cs.length && (cs.headD ' ') = '.' then ""
    else String.mk ('.' :: tail)
  else String.mk ('.' :: tail)

/-- `Path.suffix` of an `FPath`. -/
def pathSuffix (p : FPath) : String :=
  match p.parts.getLast? with
  | none => ""
  | some name => lastComponentSuffix name

/-! ## Parameter values and namelists -/

/-- A scalar namelist parameter value as produced by the f90nml parser. -/
inductive Value where
  | str (s : String)
  | num (q : ℚ)
  | bool (b : Bool)
deriving DecidableEq, Repr

/-- An `f90nml.Namelist`: group name ↦ (parameter name ↦ value). -/
abbrev Namelist : Type := List (String × List (String × Value))

/-- `Namelist.groups()`: flatten to ((group, param), value) pairs. -/
def nmlGroups (n : Namelist) : List ((String × String) × Value) :=
  n.flatMap (fun gp => gp.2.map (fun pv => ((gp.1, pv.1), pv.2)))

/-! ## Datasets and arrays -/

/-- An opaque xarray dataset; `Dataset.identical` is modelled as equality
(the dataset codec is an external collaborator compared for full structural
identity). -/
structure Dataset where
  id : Nat
deriving DecidableEq, Repr

/-- A numpy array: explicit shape plus row-major data (floats idealised as
rationals). -/
structure NDArray where
  shape : List Nat
  data : List ℚ
deriving DecidableEq, Repr

/-- `numpy.array_equal`: same shape and same elements. -/
def arrayEqual (a b : NDArray) : Bool :=
  a.shape = b.shape && a.data = b.data

/-! ## The filesystem -/

/-- Typed contents of a file: a parsed namelist (`.nml` via the f90nml
codec), raw text lines (ascii data files), or a netCDF dataset. -/
inductive FileData where
  | nml (n : Namelist)
  | text (lines : List String)
  | nc (d : Dataset)
deriving DecidableEq

/-- A filesystem: absolute normalised component lists ↦ contents. -/
structure FS where
  files : List (List String × FileData)
deriving DecidableEq

/-- Content of the file at `p`, if any. -/
def FS.lookup (fs : FS) (p : List String) : Option FileData :=
  (fs.files.find? (fun e => e.1 = p)).map (·.2)

/-- `path.is_file()`. -/
def FS.isFile (fs : FS) (p : List String) : Bool :=
  (fs.lookup p).isSome

/-- `path.is_dir()`: some file lies strictly below `p`. -/
def FS.isDir (fs : FS) (p : List String) : Bool :=
  fs.files.any (fun e => p ≠ e.1 && p.isPrefixOf e.1)

/-- `path.exists()`. -/
def FS.existsPath (fs : FS) (p : List String) : Bool :=
  fs.isFile p || fs.isDir p

/-- Write (create or overwrite) the file at `p`. -/
def FS.insert (fs : FS) (p : List String) (d : FileData) : FS :=
  { files := (p, d) :: fs.files.filter (fun e => e.1 ≠ p) }

/-! ## JulesNamelists -/

/-- The fixed schema: the 29 dataclass fields of `JulesNamelists`, in field
(i.e. declaration) order. -/
def julesNamelistNames : List String :=
  ["ancillaries", "crop_params", "drive", "fire", "imogen",
   "initial_conditions", "jules_deposition", "jules_hydrology",
   "jules_irrig", "jules_prnt_control", "jules_radiation", "jules_rivers",
   "jules_snow", "jules_soil_biogeochem", "jules_soil", "jules_surface",
   "jules_surface_types", "jules_vegetation", "jules_water_resources",
   "model_environment", "model_grid", "nveg_params", "output",
   "pft_params", "prescribed_data", "science_fixes", "timesteps",
   "triffid_params", "urban"]

/-- `JulesNamelists` (`config/namelists.py`): one `f90nml.Namelist` per field,
kept as an association list in field order, plus the `ConfigBase._path`
attachment (`none` = detached). -/
structure JulesNamelists where
  entries : List (String × Namelist)
  path : Option (List String)
deriving DecidableEq

/-- `JulesNamelists.parameters`: flattened dict of all parameters indexed by
(namelist, group, param) 3-tuples. -/
def parameters (nl : JulesNamelists) : List ((String × String × String) × Value) :=
  nl.entries.flatMap
    (fun e => (nmlGroups e.2).map (fun gv => ((e.1, gv.1.1, gv.1.2), gv.2)))

/-- The recognised data-file extensions of `file_parameters`. -/
def validExtensions : List String := [".nc", ".cdf", ".asc", ".txt", ".dat"]

/-- Is this value a file-valued parameter: a string ending in a recognised
extension?  (`isinstance(value, str) and value.endswith(valid_extensions)`) -/
def isFileValue : Value → Bool
  | .str s => validExtensions.any (fun ext => strEndsWith s ext)
  | _ => false

/-- `JulesNamelists.file_parameters`: the subset of `parameters` that point
to input files. -/
def file_parameters (nl : JulesNamelists) :
    List ((String × String × String) × Value) :=
  (parameters nl).filter (fun kv => isFileValue kv.2)

/-- The string carried by a `Value.str` (file-parameter values are always
strings). -/
def valueStr : Value → String
  | .str s => s
  | _ => ""

/-- The deduplicated value strings of `file_parameters`
(`set(self.file_parameters.values())`). -/
def requiredFileStrs (nl : JulesNamelists) : List String :=
  ((file_parameters nl).map (fun kv => valueStr kv.2)).dedup

/-- `JulesNamelists.required_files`: unique file paths present in the
namelists. -/
def required_files (nl : JulesNamelists) : List FPath :=
  (requiredFileStrs nl).map parsePath

/-- `JulesNamelists.input_files(rel_only)`: the unique `Path`s of
`file_parameters`, optionally restricted to relative paths.  `JulesConfig`
calls this method; it is absent from `config/namelists.py` in this revision
and its definition follows the sibling implementation
`deprecated/old_fs.py::NamelistsDirectory.input_files` (the spec's
FileParameterIndex restricted to relative paths). -/
def input_files (nl : JulesNamelists) (relOnly : Bool) : List FPath :=
  let unique := ((file_parameters nl).map (fun kv => parsePath (valueStr kv.2))).dedup
  if relOnly then unique.filter (fun p => !p.absolute) else unique

/-- `JulesNamelists.__post_init__`: every required file path must be absolute
or resolve (against the process working directory) to a location inside it;
otherwise `InvalidPath`.  (`expanduser` is the identity here: no `~` paths.) -/
def namelistsPostInit (cwd : List String) (nl : JulesNamelists) :
    Except PyErr Unit :=
  if (required_files nl).all
      (fun fp => fp.absolute || cwd.isPrefixOf (resolveParts cwd fp)) then
    .ok ()
  else .error .invalidPath

/-- Construct a `JulesNamelists` (detached), running `__post_init__`.  The
dataclass constructor only accepts exactly the 29 schema fields. -/
def mkJulesNamelists (cwd : List String) (entries : List (String × Namelist)) :
    Except PyErr JulesNamelists :=
  if entries.map Prod.fst ≠ julesNamelistNames then .error .typeError
  else
    let nl : JulesNamelists := { entries := entries, path := none }
    do
      _ ← namelistsPostInit cwd nl
      pure nl

/-- `f90nml.read`: read and parse one namelist file. -/
def f90nmlRead (fs : FS) (p : List String) : Except PyErr Namelist :=
  match fs.lookup p with
  | none => .error .fileNotFoundError
  | some (.nml n) => .ok n
  | some _ => .error .valueError

/-- `JulesNamelists._read`: load every schema namelist from
`dir/<name>.nml` (the directory is resolved first). -/
def julesNamelistsUnderRead (cwd : List String) (fs : FS) (dir : FPath) :
    Except PyErr JulesNamelists :=
  let dirAbs := resolveParts cwd dir
  do
    let entries ← julesNamelistNames.mapM
      (fun name => do
        let n ← f90nmlRead fs (dirAbs ++ [name ++ ".nml"])
        pure (name, n))
    let nl : JulesNamelists := { entries := entries, path := none }
    _ ← namelistsPostInit cwd nl
    pure nl

/-- `ConfigBase.read` specialised to `JulesNamelists`: existence check, then
`_read`, then attach `_path`. -/
def julesNamelistsRead (cwd : List String) (fs : FS) (dir : FPath) :
    Except PyErr JulesNamelists :=
  if !fs.existsPath (resolveParts cwd dir) then .error .fileNotFoundError
  else do
    let nl ← julesNamelistsUnderRead cwd fs dir
    pure { nl with path := some (dir.parts) }

/-- The namelist-file write loop of `JulesNamelists._write`: each
`Namelist.write(file, force)` fails with `FileExistsError` when the target
exists and `force` is false. -/
def writeNmlFiles (fs : FS) (dirAbs : List String)
    (entries : List (String × Namelist)) (force : Bool) : Except PyErr FS :=
  match entries with
  | [] => .ok fs
  | (name, n) :: rest =>
    let target := dirAbs ++ [name ++ ".nml"]
    if fs.isFile target && !force then .error .fileExistsError
    else writeNmlFiles (fs.insert target (.nml n)) dirAbs rest force

/-- `ConfigBase.write` specialised to `JulesNamelists`: resolve the target,
reject an existing plain file unless overwriting, run `_write`, then re-read
the directory and return the attached copy. -/
def julesNamelistsWrite (cwd : List String) (fs : FS) (nl : JulesNamelists)
    (dir : FPath) (overwrite : Bool) :
    Except PyErr (JulesNamelists × FS) :=
  let dirAbs := resolveParts cwd dir
  if fs.isFile dirAbs && !overwrite then .error .fileExistsError
  else do
    let fs' ← writeNmlFiles fs dirAbs nl.entries overwrite
    let nl' ← julesNamelistsRead cwd fs' { absolute := true, parts := dirAbs }
    pure (nl', fs')

/-! ## Namelists auto-discovery (`find_namelists`) -/

/-- Do all 29 schema namelist files exist in directory `d`? -/
def allNamelistFilesExist (fs : FS) (d : List String) : Bool :=
  julesNamelistNames.all (fun name => fs.isFile (d ++ [name ++ ".nml"]))

/-- The candidate directories of `find_namelists`: parents of every
`ancillaries.nml` found under `root` that contain the full schema
(absolute form; the Python code stores them relative to `root`). -/
def findCandidates (fs : FS) (root : List String) : List (List String) :=
  fs.files.filterMap
    (fun e =>
      if e.1.getLast? = some "ancillaries.nml"
          && root.isPrefixOf e.1.dropLast
          && allNamelistFilesExist fs e.1.dropLast then
        some e.1.dropLast
      else none)

/-- `str(path)` of a directory taken relative to `root`. -/
def renderRelTo (d root : List String) : String :=
  renderPath { absolute := false, parts := d.drop root.length }

/-- `find_namelists(root)` (`config/namelists.py`): error on zero or on more
than one candidate, otherwise the unique candidate relative to `root`. -/
def find_namelists (fs : FS) (root : List String) : Except PyErr String :=
  match findCandidates fs root with
  | [] => .error .fileNotFoundError
  | [d] => .ok (renderRelTo d root)
  | _ => .error .ambiguousLocation

/-! ## Numeric text: `"%.5f"` formatting and float parsing -/

/-- Decimal digits of a natural number (most significant first), by
structural recursion on a fuel bound. -/
def natDigitsAux : Nat → Nat → List Char
  | 0, _ => []
  | fuel + 1, n =>
    if n = 0 then []
    else natDigitsAux fuel (n / 10) ++ [Char.ofNat (48 + n % 10)]

/-- Decimal rendering of a natural number. -/
def natToChars (n : Nat) : List Char :=
  if n = 0 then ['0'] else natDigitsAux (n + 1) n

/-- Zero-padded 5-digit fractional part. -/
def pad5 (n : Nat) : String :=
  let cs := natToChars n
  String.mk (List.replicate (5 - cs.length) '0' ++ cs)

/-- `"%.5f" % q`: fixed-point with exactly five decimals, rounding to the
nearest multiple of `1/100000` (ties are irrelevant for the values used
here). -/
def printQ5 (q : ℚ) : String :=
  let z : ℤ := (q * 100000 + 1 / 2).floor
  (if z < 0 then "-" else "")
    ++ String.mk (natToChars (z.natAbs / 100000)) ++ "." ++ pad5 (z.natAbs % 100000)

/-- Decimal digits folded into a natural number. -/
def parseDigits (cs : List Char) : Nat :=
  cs.foldl (fun a c => a * 10 + (c.toNat - 48)) 0

/-- Unsigned fixed-point float literal (no exponent forms: the data files
written and read here never contain them). -/
def parseUnsigned (cs : List Char) : Option ℚ :=
  let intCs := cs.takeWhile (fun c => c ≠ '.')
  match cs.dropWhile (fun c => c ≠ '.') with
  | [] =>
    if intCs ≠ [] && intCs.all Char.isDigit then some (parseDigits intCs : ℚ)
    else none
  | _ :: fracCs =>
    if fracCs.any (fun c => c = '.') then none
    else if intCs = [] && fracCs = [] then none
    else if intCs.all Char.isDigit && fracCs.all Char.isDigit then
      some ((parseDigits intCs : ℚ)
        + (parseDigits fracCs : ℚ) / ((10 : ℚ) ^ fracCs.length))
    else none

/-- `float(word)` for the numeric tokens of a data file. -/
def parseNum (s : String) : Option ℚ :=
  match s.data with
  | '-' :: rest => (parseUnsigned rest).map (fun q => -q)
  | '+' :: rest => parseUnsigned rest
  | cs => parseUnsigned cs

/-- Split a character list on a predicate, keeping the non-matching pieces. -/
def splitOnPred (p : Char → Bool) : List Char → List (List Char)
  | [] => [[]]
  | c :: cs =>
    let rest := splitOnPred p cs
    if p c then [] :: rest
    else
      match rest with
      | [] => [[c]]
      | piece :: more => (c :: piece) :: more

/-- Whitespace-delimited tokens of a line. -/
def lineTokens (cs : List Char) : List (List Char) :=
  (splitOnPred isSpaceChar cs).filter (fun piece => piece ≠ [])

/-- Everything before the first comment character (`numpy.loadtxt` with
`comments=("#", "!")` discards the rest of the line). -/
def beforeComment (cs : List Char) : List Char :=
  cs.takeWhile (fun c => c ≠ '#' && c ≠ '!')

/-- `numpy.loadtxt(lines, comments=("#", "!"))`: drop comments and blank
lines, parse whitespace-separated floats, require rectangular data, and
squeeze length-one axes (a single row — or column — loads as a 1-D array).
`none` is a parse failure (`ValueError`). -/
def loadtxt (lines : List String) : Option NDArray :=
  let tokenRows := lines.filterMap
    (fun l =>
      let toks := lineTokens (beforeComment l.data)
      if toks = [] then none else some toks)
  do
    let rows ← tokenRows.mapM (fun row => row.mapM (fun t => parseNum (String.mk t)))
    match rows with
    | [] => none
    | r0 :: _ =>
      if rows.all (fun r => r.length = r0.length) then
        some { shape := ([rows.length, r0.length].filter (fun n => n ≠ 1))
               data := rows.flatten }
      else none

/-- The text lines produced by `JulesInputAscii._write`:
`numpy.savetxt(path, data.reshape(1, -1), fmt="%.5f", header=comment,
comments="#")` — header lines each prefixed with `"#"`, then the whole array
flattened into a single row. -/
def asciiFileLines (data : NDArray) (comment : String) : List String :=
  let headerLines :=
    if comment = "" then []
    else (splitCharsOn '\n' comment.data).map (fun l => String.mk ('#' :: l))
  headerLines ++ [String.intercalate " " (data.data.map printQ5)]

/-- `JulesInputAscii._read`: strip the first line, treat a leading `#` or
`!` as a single-line comment (indexing an empty first line raises
`IndexError`), then `loadtxt` the file. -/
def asciiRead (lines : List String) : Except PyErr (NDArray × String) :=
  let firstLine := pyStrip ((lines.headD ""))
  match firstLine.data with
  | [] => .error .indexError
  | c :: _ =>
    let comment :=
      if c = '#' || c = '!' then String.mk (firstLine.data.drop 1) else ""
    match loadtxt lines with
    | none => .error .valueError
    | some data => .ok (data, comment)

/-! ## JulesInput -/

/-- The ascii extensions accepted by `JulesInputAscii.valid_extensions`. -/
def asciiValidExtensions : List String := [".asc", ".dat", ".txt"]

/-- A `JulesInput` object: the tagged variant returned by the `JulesInput`
factory, with the `ConfigBase._path` attachment. -/
inductive JulesInput where
  | ascii (data : NDArray) (comment : String) (path : Option (List String))
  | netcdf (data : Option Dataset) (path : Option (List String))
deriving DecidableEq

/-- `__eq__` of the input classes: ascii compares `numpy.array_equal` on the
data only (the comment is not compared); netcdf compares
`Dataset.identical`.  (`identical` on an unloaded `None` dataset would raise
`AttributeError`; unloaded operands simply compare unequal here, a case not
reached by the claims.) -/
def julesInputEqB : JulesInput → JulesInput → Bool
  | .ascii d1 _ _, .ascii d2 _ _ => arrayEqual d1 d2
  | .netcdf (some d1) _, .netcdf (some d2) _ => d1 = d2
  | _, _ => false

/-- Lookup in an association list (`dict` access by key). -/
def lookupList {α : Type} (l : List (String × α)) (k : String) : Option α :=
  (l.find? (fun e => e.1 = k)).map (·.2)

/-- `ConfigBase.read` specialised to `JulesInputAscii`: existence check, then
`_read`, then attach. -/
def asciiReadFile (fs : FS) (full : List String) :
    Except PyErr JulesInput :=
  if !fs.existsPath full then .error .fileNotFoundError
  else
    match fs.lookup full with
    | some (.text lines) => do
        let (data, comment) ← asciiRead lines
        pure (.ascii data comment (some full))
    | _ => .error .valueError

/-- `JulesInput(file_ext).read(full)`: per-extension dispatch of the
factory, then the matching read.  For `.nc`/`.cdf` the factory's
`JulesInputNetcdf(data=data)` raises `TypeError` at instantiation —
`JulesInputNetcdf` leaves `ConfigBase`'s abstract `_read`/`_write`/`_update`
unimplemented — before any file access; an unknown extension is the
factory's `ValueError`. -/
def julesInputRead (fs : FS) (full : List String) (ext : String) :
    Except PyErr JulesInput :=
  if asciiValidExtensions.contains ext then asciiReadFile fs full
  else if ext = ".nc" || ext = ".cdf" then .error .typeError
  else .error .valueError

/-- Writing one binding during `JulesConfig._write`
(`self.inputs[str(path)].write(full_path, overwrite=overwrite)`).  For an
ascii input this is `ConfigBase.write`: resolve, existing-file check, then
the `self._write(path, overwrite)` call — which raises `TypeError`, since
`JulesInputAscii._write` accepts only `(self, path)`.  For a netcdf input
the overriding `JulesInputNetcdf.write(self, file_path)` rejects the
`overwrite=` keyword: `TypeError` at the call, before its body runs.  No
binding write ever succeeds in this revision (the intended `_write` body —
extension check and `savetxt` of the flattened row — is `asciiFileLines`,
reachable only by calling the codec directly). -/
def julesInputWrite (fs : FS) (full : List String) (obj : JulesInput)
    (overwrite : Bool) : Except PyErr FS :=
  match obj with
  | .ascii _ _ _ =>
    if fs.isFile full && !overwrite then .error .fileExistsError
    else .error .typeError
  | .netcdf _ _ => .error .typeError

/-! ## Namelist patching and `update` -/

/-- Patch one namelist group: existing parameters are overridden, new ones
appended (`f90nml.Namelist.patch`, one level down). -/
def nmlGroupPatch (g pg : List (String × Value)) : List (String × Value) :=
  pg.foldl
    (fun acc kv =>
      if acc.any (fun e => e.1 = kv.1) then
        acc.map (fun e => if e.1 = kv.1 then (e.1, kv.2) else e)
      else acc ++ [kv])
    g

/-- `f90nml.Namelist.patch`: merge a patch namelist group-wise. -/
def nmlPatch (n p : Namelist) : Namelist :=
  p.foldl
    (fun acc gp =>
      if acc.any (fun e => e.1 = gp.1) then
        acc.map (fun e => if e.1 = gp.1 then (e.1, nmlGroupPatch e.2 gp.2) else e)
      else acc ++ [gp])
    n

/-- `JulesNamelists._update`: `getattr(self, namelist).patch(patch)` for each
patch entry; a key that is not a schema field raises `AttributeError`. -/
def patchEntries (entries : List (String × Namelist)) :
    List (String × Namelist) → Except PyErr (List (String × Namelist))
  | [] => .ok entries
  | (name, p) :: rest =>
    if entries.any (fun e => e.1 = name) then
      patchEntries
        (entries.map (fun e => if e.1 = name then (e.1, nmlPatch e.2 p) else e))
        rest
    else .error .attributeError

/-- `ConfigBase.update` specialised to `JulesNamelists`: a detached object
with no new values is a no-op; `_update` applies the in-memory patch; an
attached object is then rewritten in place (`_write(self.path,
overwrite=True)`). -/
def julesNamelistsUpdate (fs : FS) (nl : JulesNamelists)
    (newValues : Option (List (String × Namelist))) :
    Except PyErr (JulesNamelists × FS) :=
  match newValues, nl.path with
  | none, none => .ok (nl, fs)
  | newValues, _ => do
    let nl' ←
      match newValues with
      | none => pure nl
      | some patch => do
          let entries' ← patchEntries nl.entries patch
          pure { nl with entries := entries' }
    match nl.path with
    | none => pure (nl', fs)
    | some pth => do
        let fs' ← writeNmlFiles fs (normalizeParts pth) nl'.entries true
        pure (nl', fs')

/-! ## JulesConfig -/

/-- `JulesConfig` (`config/config.py`): namelists, the namelists
subdirectory (relative to the run directory), the `FrozenDict` of inputs
keyed by the relative path strings, and the `ConfigBase._path` attachment. -/
structure JulesConfig where
  namelists : JulesNamelists
  namelists_subdir : String
  inputs : List (String × JulesInput)
  path : Option (List String)
deriving DecidableEq

/-- `JulesConfig.__post_init__` as a smart constructor (the produced value is
detached; `read` attaches afterwards, as `ConfigBase.read` does):
1. an absolute `namelists_subdir` is `InvalidPath`;
2. a subdirectory that does not resolve (against the working directory) to a
   location inside it is `InvalidPath`;
3. the `assert` that the input keys equal the relative input-file path
   strings, in order (`AssertionError`);
4. for an attached `namelists`, the `assert` that its path matches the
   subdirectory pattern (`Path.match` on an empty pattern is `ValueError`). -/
def mkJulesConfig (cwd : List String) (nl : JulesNamelists)
    (subdir : String) (inputs : List (String × JulesInput)) :
    Except PyErr JulesConfig :=
  let p := parsePath subdir
  if p.absolute then .error .invalidPath
  else if !cwd.isPrefixOf (resolveParts cwd p) then .error .invalidPath
  else if inputs.map Prod.fst ≠ (input_files nl true).map renderPath then
    .error .assertionError
  else
    match nl.path with
    | none => .ok { namelists := nl, namelists_subdir := subdir,
                    inputs := inputs, path := none }
    | some np =>
      if p.parts = [] then .error .valueError
      else if !p.parts.isSuffixOf np then .error .assertionError
      else .ok { namelists := nl, namelists_subdir := subdir,
                 inputs := inputs, path := none }

/-- `JulesConfig.read` (`ConfigBase.read` + `JulesConfig._read`): existence
check; auto-discover the namelists subdirectory when not given; read the
namelists; read every relative input file; construct (running
`__post_init__`); attach to the root. -/
def configRead (cwd : List String) (fs : FS) (root : FPath)
    (subdirOpt : Option String) : Except PyErr JulesConfig :=
  let rootAbs := resolveParts cwd root
  if !fs.existsPath rootAbs then .error .fileNotFoundError
  else do
    let subdir ←
      match subdirOpt with
      | some s => pure s
      | none => find_namelists fs rootAbs
    let nl ← julesNamelistsRead cwd fs
      { absolute := true, parts := rootAbs ++ (parsePath subdir).parts }
    let inputs ← (input_files nl true).mapM
      (fun p => do
        let inp ← julesInputRead fs (normalizeParts (rootAbs ++ p.parts))
          (pathSuffix p)
        pure (renderPath p, inp))
    let c ← mkJulesConfig cwd nl subdir inputs
    pure { c with path := some rootAbs }

/-- `JulesConfig.check_inputs_match_required_files`: the input keys and the
relative input-file path strings agree as sets. -/
def checkInputsMatchRequiredFiles (c : JulesConfig) : Bool :=
  let req := (input_files c.namelists true).map renderPath
  let keys := c.inputs.map Prod.fst
  req.all (fun s => keys.contains s) && keys.all (fun s => req.contains s)

/-- The binding-write loop of `JulesConfig._write`: for each relative
input-file path, write `self.inputs[str(path)]` to `dest/path`. -/
def inputsWriteFold (fs : FS) (c : JulesConfig) (destAbs : List String)
    (overwrite : Bool) : List FPath → Except PyErr FS
  | [] => .ok fs
  | p :: rest => do
    let full := normalizeParts (destAbs ++ p.parts)
    let obj ←
      match lookupList c.inputs (renderPath p) with
      | none => throw .keyError
      | some o => pure o
    let fs' ← julesInputWrite fs full obj overwrite
    inputsWriteFold fs' c destAbs overwrite rest

/-- `JulesConfig._write`: write the namelists subdirectory (through the
public `JulesNamelists.write`, which re-reads it), assert the key/required
match, then write every relative binding. -/
def configUnderWrite (cwd : List String) (fs : FS) (c : JulesConfig)
    (destAbs : List String) (overwrite : Bool) : Except PyErr FS :=
  do
    let (_, fs1) ← julesNamelistsWrite cwd fs c.namelists
      { absolute := true,
        parts := destAbs ++ (parsePath c.namelists_subdir).parts } overwrite
    if !checkInputsMatchRequiredFiles c then .error .assertionError
    else inputsWriteFold fs1 c destAbs overwrite (input_files c.namelists true)

/-- `ConfigBase.write` specialised to `JulesConfig`: resolve the target,
reject an existing plain file unless overwriting, `_write`, then re-read the
destination (auto-discovering the subdirectory) and return the attached
copy. -/
def configWrite (cwd : List String) (fs : FS) (c : JulesConfig) (dest : FPath)
    (overwrite : Bool) : Except PyErr (JulesConfig × FS) :=
  let destAbs := resolveParts cwd dest
  if fs.isFile destAbs && !overwrite then .error .fileExistsError
  else do
    let fs2 ← configUnderWrite cwd fs c destAbs overwrite
    let c2 ← configRead cwd fs2 { absolute := true, parts := destAbs } none
    pure (c2, fs2)

/-- `ConfigBase.update` specialised to `JulesConfig`: `JulesConfig._update`
raises `NotImplementedError` for any patch; a detached object with no patch
is a warning no-op; an attached object with no patch is rewritten in place. -/
def configUpdate (cwd : List String) (fs : FS) (c : JulesConfig)
    (newValues : Option (List (String × Namelist))) :
    Except PyErr (JulesConfig × FS) :=
  match newValues, c.path with
  | none, none => .ok (c, fs)
  | some _, _ => .error .notImplementedError
  | none, some pth => do
      let fs' ← configUnderWrite cwd fs c (normalizeParts pth) true
      pure (c, fs')

/-- Detach one input (value-identical, no filesystem association). -/
def inputDetach : JulesInput → JulesInput
  | .ascii d cm _ => .ascii d cm none
  | .netcdf d _ => .netcdf d none

/-- `JulesConfig._detach`: the value-identical detached copy.  (The public
`ConfigBase.detach` reconstructs from `dataclasses.asdict`, which flattens
the nested `namelists` dataclass into a plain dict and so cannot return for
`JulesConfig`; `_detach` is the operative detach implementation.) -/
def configDetach (c : JulesConfig) : JulesConfig :=
  { namelists := { c.namelists with path := none }
    namelists_subdir := c.namelists_subdir
    inputs := c.inputs.map (fun e => (e.1, inputDetach e.2))
    path := none }

/-- Python `dict` equality with values compared by `f`. -/
def dictEqBy {α : Type} (f : α → α → Bool) (a b : List (String × α)) : Bool :=
  a.all (fun kv =>
    match lookupList b kv.1 with
    | some v => f kv.2 v
    | none => false)
  && b.all (fun kv =>
    match lookupList a kv.1 with
    | some v => f v kv.2
    | none => false)

/-- `JulesConfig.__eq__`: same namelists (dataclass field equality — the
attachment is not a field), same subdirectory string, and equal inputs dicts
(values by the input classes' `__eq__`). -/
def julesConfigEqB (a b : JulesConfig) : Bool :=
  a.namelists.entries = b.namelists.entries
    && a.namelists_subdir = b.namelists_subdir
    && dictEqBy julesInputEqB a.inputs b.inputs

/-! ## Concrete fixtures

A minimal but schema-complete configuration directory: the working directory
is `/home/user`, the configuration root `/home/user/run1` holds a
`namelists/` subdirectory with all 29 namelist files, and the `drive`
namelist declares one relative ascii input `inputs/data.dat`. -/

/-- A parameter-populated namelist with no file-valued parameters. -/
def plainNml : Namelist := [("g", [("x", Value.num 1)])]

/-- A `drive` namelist whose `io::file` parameter points at a relative ascii
data file. -/
def driveNmlRel : Namelist := [("io", [("file", Value.str "inputs/data.dat")])]

/-- Schema-complete entries with the given `drive` namelist. -/
def mkSchemaEntries (d : Namelist) : List (String × Namelist) :=
  julesNamelistNames.map (fun n => (n, if n = "drive" then d else plainNml))

/-- The process working directory of the fixtures. -/
def cwd0 : List String := ["home", "user"]

/-- The configuration root of the round-trip fixture. -/
def rootC1 : List String := ["home", "user", "run1"]

/-- The round-trip fixture filesystem: a valid configuration directory whose
single relative ascii input holds a 2×5 matrix. -/
def fsC1 : FS :=
  { files :=
      (julesNamelistNames.map
        (fun n => (rootC1 ++ ["namelists", n ++ ".nml"],
          FileData.nml (if n = "drive" then driveNmlRel else plainNml))))
      ++ [(rootC1 ++ ["inputs", "data.dat"],
            FileData.text ["1 2 3 4 5", "6 7 8 9 10"])] }

/-- The fresh destination directory of the round-trip fixture. -/
def tmpC1 : FPath := { absolute := true, parts := ["home", "user", "tmp1"] }

/-- `read(root)` of the round-trip fixture. -/
def c1Read : Except PyErr JulesConfig :=
  configRead cwd0 fsC1 { absolute := true, parts := rootC1 } (some "namelists")

/-- The shapes of a configuration's ascii input arrays, by key order. -/
def inputShapes (c : JulesConfig) : List (List Nat) :=
  c.inputs.map (fun e => match e.2 with | .ascii d _ _ => d.shape | _ => [])

/-- `read(write(c, tmp)) == c` of the round-trip fixture, under the
structural equality operator of the code (the `write` step is where the
pipeline dies in this revision). -/
def c1RoundTripEq : Except PyErr Bool := do
  let c ← c1Read
  let (c2, _) ← configWrite cwd0 fsC1 c tmpC1 false
  pure (julesConfigEqB c2 c)

/-- The ascii-scenario file of the spec: a `"# comment"` line followed by
ten rows of `"1 2 3 4 5"`. -/
def c8Lines : List String := "# comment" :: List.replicate 10 "1 2 3 4 5"

/-- Write-then-read of the ascii scenario value. -/
def c8Reread : Except PyErr (NDArray × String) := do
  let (d, cm) ← asciiRead c8Lines
  asciiRead (asciiFileLines d cm)

/-- Schema-complete entries with no file-valued parameters anywhere. -/
def plainEntries : List (String × Namelist) :=
  julesNamelistNames.map (fun n => (n, plainNml))

/-- A detached `JulesNamelists` over `plainEntries`. -/
def plainNamelists : JulesNamelists := { entries := plainEntries, path := none }

/-- A detached configuration with no bound inputs (all namelists are file
free), as `JulesConfig(namelists=..., namelists_subdir="namelists",
inputs=FrozenDict({}))`. -/
def plainConfig : JulesConfig :=
  { namelists := plainNamelists, namelists_subdir := "namelists"
    inputs := [], path := none }

/-- The non-empty destination directory fixture: `/home/user/tmp2` already
contains an unrelated file. -/
def fsNonEmptyDest : FS :=
  { files := [(["home", "user", "tmp2", "unrelated.txt"], FileData.text ["hi"])] }

/-- Writing the detached no-input configuration into the non-empty
directory. -/
def c5WriteAttempt : Except PyErr (JulesConfig × FS) :=
  configWrite cwd0 fsNonEmptyDest plainConfig
    { absolute := true, parts := ["home", "user", "tmp2"] } false

/-- A patch value for `update`: override `drive::g::x`. -/
def samplePatch : List (String × Namelist) :=
  [("drive", [("g", [("x", Value.num 2)])])]

/-- The detached namelists-with-a-file fixture used for witnesses. -/
def relNamelists : JulesNamelists :=
  { entries := mkSchemaEntries driveNmlRel, path := none }

/-- A loaded ascii input bound to `inputs/data.dat` in witnesses. -/
def sampleAsciiInput : JulesInput :=
  .ascii { shape := [2, 5], data := [1, 2, 3, 4, 5, 6, 7, 8, 9, 10] } "" none

/-- A directly-constructed configuration whose single binding matches the
single relative file parameter. -/
def relConfigVal : JulesConfig :=
  { namelists := relNamelists, namelists_subdir := "namelists"
    inputs := [("inputs/data.dat", sampleAsciiInput)], path := none }

/-- The construction of `relConfigVal` through `__post_init__`. -/
def relConfigMk : Except PyErr JulesConfig :=
  mkJulesConfig cwd0 relNamelists "namelists"
    [("inputs/data.dat", sampleAsciiInput)]

/-- The parent-escaping-but-accepted fixture: from working directory
`/home/a`, the subdirectory value `"../a/x"` resolves back under the working
directory even though it escapes any configuration root not named `a`. -/
def c3SneakyMk : Except PyErr JulesConfig :=
  mkJulesConfig ["home", "a"]
    { entries := plainEntries, path := none } "../a/x" []

/-- An absolute-path file parameter next to a relative one: the fixture for
the never-bound claim. -/
def driveNmlAbs : Namelist :=
  [("io", [("file", Value.str "inputs/data.dat"),
           ("file_abs", Value.str "/abs/path/data.nc")])]

/-- Filesystem for the absolute-path fixture: the run directory plus the
externally-referenced absolute dataset. -/
def fsC4 : FS :=
  { files :=
      (julesNamelistNames.map
        (fun n => (rootC1 ++ ["namelists", n ++ ".nml"],
          FileData.nml (if n = "drive" then driveNmlAbs else plainNml))))
      ++ [(rootC1 ++ ["inputs", "data.dat"],
            FileData.text ["1 2 3 4 5", "6 7 8 9 10"]),
          (["abs", "path", "data.nc"], FileData.nc { id := 7 })] }

/-- `read(root)` of the absolute-path fixture. -/
def c4Read : Except PyErr JulesConfig :=
  configRead cwd0 fsC4 { absolute := true, parts := rootC1 } (some "namelists")

/-- The destination of the absolute-path fixture's write. -/
def tmpC4 : FPath := { absolute := true, parts := ["home", "user", "tmp4"] }

/-- The configuration read from the absolute-path fixture (extracted). -/
def c4ConfigVal : JulesConfig :=
  match c4Read with
  | .ok c => c
  | .error _ => plainConfig

/-- A `drive` namelist whose only file parameter is an absolute path — the
class of configuration whose write can actually complete (no relative
binding reaches the crashing per-binding write). -/
def driveNmlAbsOnly : Namelist :=
  [("io", [("file", Value.str "/abs/path/data.nc")])]

/-- The root of the absolute-only fixture. -/
def rootC4b : List String := ["home", "user", "run4"]

/-- Filesystem for the absolute-only fixture: a valid run directory whose
single file parameter is the external absolute dataset. -/
def fsC4b : FS :=
  { files :=
      (julesNamelistNames.map
        (fun n => (rootC4b ++ ["namelists", n ++ ".nml"],
          FileData.nml (if n = "drive" then driveNmlAbsOnly else plainNml))))
      ++ [(["abs", "path", "data.nc"], FileData.nc { id := 7 })] }

/-- `read(root)` of the absolute-only fixture. -/
def c4bRead : Except PyErr JulesConfig :=
  configRead cwd0 fsC4b { absolute := true, parts := rootC4b }
    (some "namelists")

/-- The configuration read from the absolute-only fixture (extracted). -/
def c4bConfigVal : JulesConfig :=
  match c4bRead with
  | .ok c => c
  | .error _ => plainConfig

/-- Write of the absolute-only fixture configuration to a fresh directory. -/
def c4bWritten : Except PyErr (JulesConfig × FS) :=
  configWrite cwd0 fsC4b c4bConfigVal tmpC4 false

/-- The write result of the absolute-only fixture (extracted). -/
def c4bWrittenVal : JulesConfig × FS :=
  match c4bWritten with
  | .ok r => r
  | .error _ => (plainConfig, fsC4b)

/-- The write result of the non-empty-destination fixture (extracted). -/
def c5WrittenVal : JulesConfig × FS :=
  match c5WriteAttempt with
  | .ok r => r
  | .error _ => (plainConfig, fsNonEmptyDest)

/-- A schema whose `drive` namelist points at a parent-escaping data file. -/
def driveNmlEsc : Namelist :=
  [("io", [("file", Value.str "../shared/data.dat")])]

/-- The entries produced by patching the witness fixture. -/
def patchedEntriesC6 : List (String × Namelist) :=
  match patchEntries relNamelists.entries samplePatch with
  | .ok e => e
  | .error _ => []

/-- A filesystem whose write destination is occupied by a plain file. -/
def fsFileDest : FS :=
  { files := [(["home", "user", "target"], FileData.text ["x"])] }

/-- A directory under `root` containing all 29 schema namelist files: the
semantic characterisation of an auto-discovery candidate. -/
def isNamelistDirCandidate (fs : FS) (root d : List String) : Prop :=
  root <+: d ∧ allNamelistFilesExist fs d = true

/-! # Theorems

First general-purpose lemmas about the embedding, then one theorem (plus
counterexample/witness where applicable) per specification claim. -/

theorem find?_fst_filter_ne {α : Type} [DecidableEq α] (p q : α)
    (h : q ≠ p) (l : List (α × FileData)) :
    (l.filter (fun e => e.1 ≠ p)).find? (fun e => e.1 = q)
      = l.find? (fun e => e.1 = q) := by
  induction l with
  | nil => rfl
  | cons e es ih =>
    by_cases heq : e.1 = q
    · have hne : e.1 ≠ p := by rw [heq]; exact h
      rw [List.filter_cons_of_pos (by simpa using hne),
        List.find?_cons_of_pos _ (by simpa using heq),
        List.find?_cons_of_pos _ (by simpa using heq)]
    · by_cases hep : e.1 = p
      · rw [List.filter_cons_of_neg (by simpa using hep),
          List.find?_cons_of_neg _ (by simpa using heq), ih]
      · rw [List.filter_cons_of_pos (by simpa using hep),
          List.find?_cons_of_neg _ (by simpa using heq),
          List.find?_cons_of_neg _ (by simpa using heq), ih]

theorem FS.lookup_insert (fs : FS) (p : List String) (d : FileData) :
    (fs.insert p d).lookup p = some d := by
  simp [FS.insert, FS.lookup]

theorem FS.lookup_insert_ne (fs : FS) (p q : List String) (d : FileData)
    (h : q ≠ p) : (fs.insert p d).lookup q = fs.lookup q := by
  unfold FS.insert FS.lookup
  rw [List.find?_cons_of_neg _ (by simpa using fun e => h e.symm),
    find?_fst_filter_ne p q h]

theorem FS.lookup_insert_isSome_mono (fs : FS) (p q : List String)
    (d : FileData) (h : (fs.lookup q).isSome = true) :
    ((fs.insert p d).lookup q).isSome = true := by
  by_cases hpq : q = p
  · subst hpq; rw [FS.lookup_insert]; rfl
  · rw [FS.lookup_insert_ne fs p q d hpq]; exact h

theorem exceptBind_ok_iff {α β : Type} {x : Except PyErr α}
    {f : α → Except PyErr β} {b : β} :
    (x >>= f) = .ok b ↔ ∃ a, x = .ok a ∧ f a = .ok b := by
  cases x with
  | ok a => simp [Bind.bind, Except.bind]
  | error e => simp [Bind.bind, Except.bind]

set_option maxRecDepth 200000

/-- **C1** (code bug).  The claim — reading back a written configuration
reproduces it, `read(write(c, tmp)) == c`, with ascii data compared within a
tolerance — fails on the code before any comparison can happen: the valid
fixture directory reads fine (one 2×5 relative ascii input), but
`write(tmp)` reaches `ConfigBase.write`'s `self._write(path, overwrite)`
call on the first relative binding, and `JulesInputAscii._write` accepts
only `(self, path)`, so the write raises `TypeError` and the round trip
never produces a configuration at all.  (Were the binding write reachable,
its `reshape(1, -1)` flatten would still break shape equality — proved at
the codec level in the C8 theorems.) -/
theorem c1_roundtrip_write_raises_typeerror :
    c1Read.map inputShapes = .ok [[2, 5]]
      ∧ c1RoundTripEq = .error .typeError := by
  constructor <;> with_unfolding_all rfl

/-- **C8** counterexample.  On the spec's ascii scenario file (a
`"# comment"` line and ten rows of `"1 2 3 4 5"`), the code's read yields
the comment `" comment"` — with a leading space, not the claimed
`"comment"` — and write-then-read yields a flat 50-element array, not a
10×5 one. -/
theorem c8_ascii_scenario_counterexample :
    (asciiRead c8Lines).map Prod.snd = .ok " comment"
      ∧ " comment" ≠ "comment"
      ∧ c8Reread.map (fun r => r.1.shape) = .ok [50]
      ∧ [50] ≠ [10, 5] := by
  refine ⟨?_, by decide, ?_, by decide⟩ <;> with_unfolding_all rfl

/-- **C8** (corrected).  On the ascii scenario file, read yields the 10×5
numeric array and the comment `" comment"` (the `"#"` is stripped but the
following space kept); writing the value out and reading it back preserves
the comment identically and the 50 numeric values exactly in row-major
order, but returns them as a flat `(50,)` array — the shape is lost by
`_write`'s `reshape(1, -1)`. -/
theorem c8_ascii_scenario_amended :
    asciiRead c8Lines
        = .ok ({ shape := [10, 5],
                 data := (List.replicate 10 [(1 : ℚ), 2, 3, 4, 5]).flatten },
               " comment")
      ∧ c8Reread
        = .ok ({ shape := [50],
                 data := (List.replicate 10 [(1 : ℚ), 2, 3, 4, 5]).flatten },
               " comment") := by
  constructor <;> with_unfolding_all rfl

/-- **C10** (confirmed).  Reading an ascii file whose first line strips to
the empty string — an empty file, or a blank line before the data — raises
an uncaught `IndexError` from `first_line[0]`. -/
theorem c10_ascii_read_empty_first_line_indexerror
    (lines : List String) (h : pyStrip (lines.headD "") = "") :
    asciiRead lines = .error .indexError := by
  unfold asciiRead
  rw [h]

/-- Witness for C10 at a file beginning with a blank line. -/
theorem c10_ascii_read_empty_first_line_indexerror_witness :
    asciiRead ["", "1 2 3"] = .error .indexError :=
  c10_ascii_read_empty_first_line_indexerror ["", "1 2 3"] rfl

/-- **C6** counterexample.  The claim — `update(patch)` on a detached
configuration patches in-memory state and raises no error — fails for
`JulesConfig`: its `_update` raises `NotImplementedError` for every patch,
detached or not.  (`relConfigVal` passes `__post_init__` and is detached.) -/
theorem c6_config_update_raises_notimplemented :
    relConfigMk = .ok relConfigVal
      ∧ relConfigVal.path = none
      ∧ configUpdate cwd0 fsNonEmptyDest relConfigVal (some samplePatch)
          = .error .notImplementedError := by
  refine ⟨?_, rfl, rfl⟩
  with_unfolding_all rfl

/-- **C5** counterexample.  The claim — `write(dest, overwrite=false)` fails
with an exists-error whenever `dest` is non-empty — fails on the code:
`ConfigBase.write` only rejects an existing plain *file*; writing a
configuration into a non-empty directory whose filenames do not collide
succeeds and returns a state attached to the destination. -/
theorem c5_nonempty_dir_write_succeeds :
    fsNonEmptyDest.isDir ["home", "user", "tmp2"] = true
      ∧ fsNonEmptyDest.isFile ["home", "user", "tmp2"] = false
      ∧ c5WriteAttempt.isOk = true
      ∧ c5WriteAttempt.map (fun r => r.1.path)
          = .ok (some ["home", "user", "tmp2"]) := by
  refine ⟨by with_unfolding_all rfl, by with_unfolding_all rfl, ?_, ?_⟩
    <;> with_unfolding_all rfl

/-- **C3** counterexample.  The claim — any parent-escaping
namelists-subdirectory value fails construction with `InvalidPath` — fails
on the code: the check resolves against the *process working directory*,
not the configuration root.  From the working directory `/home/a`, the
value `"../a/x"` (a parent-escaping path that lies outside any root not
named `a`, e.g. `/home/b`) resolves back under the working directory and is
accepted. -/
theorem c3_escape_check_uses_cwd_counterexample :
    c3SneakyMk.isOk = true
      ∧ (parsePath "../a/x").parts.head? = some ".."
      ∧ ¬ (["home", "b"]
            <+: normalizeParts (["home", "b"] ++ (parsePath "../a/x").parts)) := by
  refine ⟨by with_unfolding_all rfl, by with_unfolding_all rfl, ?_⟩
  with_unfolding_all decide

/-- Patching succeeds and preserves the key list whenever every patch key is
an existing namelist name. -/
theorem patchEntries_ok (patch : List (String × Namelist)) :
    ∀ entries : List (String × Namelist),
    (∀ e ∈ patch, entries.any (fun en => en.1 = e.1) = true) →
    ∃ entries', patchEntries entries patch = .ok entries'
      ∧ entries'.map Prod.fst = entries.map Prod.fst := by
  induction patch with
  | nil => intro entries _; exact ⟨entries, rfl, rfl⟩
  | cons hd tl ih =>
    intro entries hkeys
    have hhd : entries.any (fun en => en.1 = hd.1) = true :=
      hkeys hd (List.mem_cons_self _ _)
    have hmapfst :
        (entries.map (fun e =>
          if e.1 = hd.1 then (e.1, nmlPatch e.2 hd.2) else e)).map Prod.fst
          = entries.map Prod.fst := by
      rw [List.map_map]
      apply List.map_congr_left
      intro e _
      by_cases he : e.1 = hd.1 <;> simp [he]
    have hany : ∀ (l : List (String × Namelist)) (k : String),
        l.any (fun en => en.1 = k) = (l.map Prod.fst).any (fun x => x = k) := by
      intro l k
      induction l with
      | nil => rfl
      | cons a t iht => simp [List.any_cons, iht]
    obtain ⟨entries', h1, h2⟩ := ih
      (entries.map (fun e =>
        if e.1 = hd.1 then (e.1, nmlPatch e.2 hd.2) else e))
      (by
        intro e he
        have := hkeys e (List.mem_cons_of_mem _ he)
        rw [hany, hmapfst, ← hany]
        exact this)
    refine ⟨entries', ?_, by rw [h2, hmapfst]⟩
    cases hd with
    | mk name p =>
      simpa [patchEntries, hhd] using h1

/-- **C6** (corrected).  The claim holds for the namelists-level
configuration object: `update(patch)` on a *detached* `JulesNamelists`
patches the in-memory entries only, returns the filesystem unchanged, and
raises no error (for patches whose keys are schema fields).  For
`JulesConfig` itself the claim fails — see the counterexample — since its
`_update` raises `NotImplementedError`. -/
theorem c6_detached_namelists_update_in_memory
    (fs : FS) (nl : JulesNamelists) (patch : List (String × Namelist))
    (hdet : nl.path = none)
    (hkeys : ∀ e ∈ patch, nl.entries.any (fun en => en.1 = e.1) = true) :
    (patchEntries nl.entries patch).isOk = true
      ∧ ∀ entries', patchEntries nl.entries patch = .ok entries' →
          julesNamelistsUpdate fs nl (some patch)
            = .ok ({ nl with entries := entries' }, fs) := by
  constructor
  · obtain ⟨entries', h1, _⟩ := patchEntries_ok patch nl.entries hkeys
    rw [h1]; rfl
  · intro entries' h1
    unfold julesNamelistsUpdate
    rw [hdet]
    simp [h1, Bind.bind, Except.bind, pure, Except.pure]

/-- Witness for C6: updating the detached fixture namelists with the sample
patch returns the patched entries and the unchanged filesystem. -/
theorem c6_detached_namelists_update_in_memory_witness :
    julesNamelistsUpdate fsNonEmptyDest relNamelists (some samplePatch)
      = .ok ({ relNamelists with entries := patchedEntriesC6 },
             fsNonEmptyDest) :=
  (c6_detached_namelists_update_in_memory fsNonEmptyDest relNamelists
      samplePatch rfl (by with_unfolding_all decide)).2
    patchedEntriesC6 (by with_unfolding_all rfl)

/-- **C3** (corrected).  The escape check is performed against the process
working directory, not the intended configuration root: construction (and
hence read) fails with `InvalidPath` exactly when the relative
namelists-subdirectory value — or a relative file-parameter value — does
not resolve back inside the working directory.  `"../shared"` is therefore
rejected from any working directory not itself named `shared`, but a
parent-escaping value that resolves back under the working directory is
accepted (see the counterexample). -/
theorem c3_escape_rejected_amended :
    (∀ (cwd : List String) (nl : JulesNamelists) (subdir : String)
        (inputs : List (String × JulesInput)),
      (parsePath subdir).absolute = false →
      ¬ (cwd <+: resolveParts cwd (parsePath subdir)) →
      mkJulesConfig cwd nl subdir inputs = .error .invalidPath)
    ∧ (∀ (cwd : List String) (entries : List (String × Namelist)) (s : String),
      entries.map Prod.fst = julesNamelistNames →
      s ∈ requiredFileStrs { entries := entries, path := none } →
      (parsePath s).absolute = false →
      ¬ (cwd <+: resolveParts cwd (parsePath s)) →
      mkJulesNamelists cwd entries = .error .invalidPath) := by
  constructor
  · intro cwd nl subdir inputs habs hesc
    have hpre : cwd.isPrefixOf (resolveParts cwd (parsePath subdir)) = false := by
      by_contra hne
      exact hesc (List.isPrefixOf_iff_prefix.mp (by simpa using hne))
    simp [mkJulesConfig, habs, hpre]
  · intro cwd entries s hnames hmem habs hesc
    have hpre : cwd.isPrefixOf (resolveParts cwd (parsePath s)) = false := by
      by_contra hne
      exact hesc (List.isPrefixOf_iff_prefix.mp (by simpa using hne))
    have hall : (required_files { entries := entries, path := none }).all
        (fun fp => fp.absolute || cwd.isPrefixOf (resolveParts cwd fp)) = false := by
      apply Bool.eq_false_iff.mpr
      intro hcontra
      have := List.all_eq_true.mp hcontra (parsePath s)
        (List.mem_map_of_mem parsePath hmem)
      rw [habs, hpre] at this
      exact Bool.false_ne_true this
    simp [mkJulesNamelists, hnames, namelistsPostInit, hall,
      Bind.bind, Except.bind]

/-- Witness for C3: `"../shared"` as subdirectory value, and
`"../shared/data.dat"` as file-parameter value, are both rejected with
`InvalidPath` at construction from the fixture working directory. -/
theorem c3_escape_rejected_amended_witness :
    mkJulesConfig cwd0 relNamelists "../shared"
        [("inputs/data.dat", sampleAsciiInput)] = .error .invalidPath
      ∧ mkJulesNamelists cwd0 (mkSchemaEntries driveNmlEsc)
          = .error .invalidPath :=
  ⟨c3_escape_rejected_amended.1 cwd0 relNamelists "../shared"
      [("inputs/data.dat", sampleAsciiInput)]
      (by with_unfolding_all rfl) (by with_unfolding_all decide),
   c3_escape_rejected_amended.2 cwd0 (mkSchemaEntries driveNmlEsc)
      "../shared/data.dat"
      (by with_unfolding_all rfl) (by with_unfolding_all decide)
      (by with_unfolding_all rfl) (by with_unfolding_all decide)⟩

/-- **C7** (confirmed).  A parameter is file-valued iff its value is a
string ending in one of `.nc`, `.cdf`, `.asc`, `.txt`, `.dat` (so
non-string values are excluded, with no error — `file_parameters` is total);
the derived required-files value list holds each distinct path value exactly
once, and `required_files` is exactly those deduplicated values as `Path`s. -/
theorem c7_file_parameter_classification (nl : JulesNamelists) :
    (∀ k v, (k, v) ∈ file_parameters nl ↔
      ((k, v) ∈ parameters nl
        ∧ ∃ s, v = Value.str s
            ∧ validExtensions.any (fun ext => strEndsWith s ext) = true))
    ∧ (∀ s, s ∈ requiredFileStrs nl ↔
        ∃ k, (k, Value.str s) ∈ parameters nl
          ∧ validExtensions.any (fun ext => strEndsWith s ext) = true)
    ∧ (requiredFileStrs nl).Nodup
    ∧ required_files nl = (requiredFileStrs nl).map parsePath := by
  have hclass : ∀ k v, (k, v) ∈ file_parameters nl ↔
      ((k, v) ∈ parameters nl
        ∧ ∃ s, v = Value.str s
            ∧ validExtensions.any (fun ext => strEndsWith s ext) = true) := by
    intro k v
    unfold file_parameters
    rw [List.mem_filter]
    constructor
    · rintro ⟨hp, hv⟩
      refine ⟨hp, ?_⟩
      cases v with
      | str s => exact ⟨s, rfl, by simpa [isFileValue] using hv⟩
      | num q => simp [isFileValue] at hv
      | bool b => simp [isFileValue] at hv
    · rintro ⟨hp, s, rfl, hext⟩
      exact ⟨hp, by simpa [isFileValue] using hext⟩
  refine ⟨hclass, ?_, List.nodup_dedup _, rfl⟩
  intro s
  unfold requiredFileStrs
  rw [List.mem_dedup, List.mem_map]
  constructor
  · rintro ⟨⟨k, v⟩, hkv, hs⟩
    obtain ⟨hp, s', rfl, hext⟩ := (hclass k v).mp hkv
    simp only [valueStr] at hs
    subst hs
    exact ⟨k, hp, hext⟩
  · rintro ⟨k, hp, hext⟩
    exact ⟨(k, Value.str s), (hclass k (Value.str s)).mpr ⟨hp, s, rfl, hext⟩, rfl⟩

/-- Witness for C7: the fixture's deduplicated required-file value list has
no duplicates. -/
theorem c7_file_parameter_classification_witness :
    (requiredFileStrs relNamelists).Nodup :=
  (c7_file_parameter_classification relNamelists).2.2.1

/-- Inversion of the `JulesConfig` constructor: a successfully constructed
value carries exactly the given fields, is detached, and satisfies the
key/path `assert`. -/
theorem mkJulesConfig_ok_inv {cwd : List String} {nl : JulesNamelists}
    {subdir : String} {inputs : List (String × JulesInput)} {c : JulesConfig}
    (h : mkJulesConfig cwd nl subdir inputs = .ok c) :
    c.namelists = nl ∧ c.namelists_subdir = subdir ∧ c.inputs = inputs
      ∧ c.path = none
      ∧ inputs.map Prod.fst = (input_files nl true).map renderPath := by
  simp only [mkJulesConfig] at h
  repeat' split at h
  all_goals
    first
      | exact Except.noConfusion h
      | (injection h with h
         subst h
         exact ⟨rfl, rfl, rfl, rfl, not_not.mp (by assumption)⟩)

/-- Inversion of `configRead`: a successfully read configuration is a
constructor-produced value attached to the resolved root. -/
theorem configRead_ok_inv {cwd : List String} {fs : FS} {root : FPath}
    {sd : Option String} {c : JulesConfig}
    (h : configRead cwd fs root sd = .ok c) :
    ∃ nl subdir inputs c0,
      mkJulesConfig cwd nl subdir inputs = .ok c0
        ∧ c = { c0 with path := some (resolveParts cwd root) } := by
  simp only [configRead] at h
  split at h
  · simp at h
  · split at h
    all_goals
      rw [exceptBind_ok_iff] at h
      obtain ⟨subdir, _, h⟩ := h
      rw [exceptBind_ok_iff] at h
      obtain ⟨nl, _, h⟩ := h
      rw [exceptBind_ok_iff] at h
      obtain ⟨inputs, _, h⟩ := h
      rw [exceptBind_ok_iff] at h
      obtain ⟨c0, hmk, h⟩ := h
      simp only [pure, Except.pure, Except.ok.injEq] at h
      exact ⟨nl, subdir, inputs, c0, hmk, h.symm⟩

/-- Inversion of `configWrite`: success decomposes into `_write` followed by
the attached re-read of the destination. -/
theorem configWrite_ok_inv {cwd : List String} {fs : FS} {c : JulesConfig}
    {dest : FPath} {ow : Bool} {c2 : JulesConfig} {fs2 : FS}
    (h : configWrite cwd fs c dest ow = .ok (c2, fs2)) :
    configUnderWrite cwd fs c (resolveParts cwd dest) ow = .ok fs2
      ∧ configRead cwd fs2
          { absolute := true, parts := resolveParts cwd dest } none = .ok c2 := by
  simp only [configWrite] at h
  split at h
  · simp at h
  · rw [exceptBind_ok_iff] at h
    obtain ⟨fs2', hw, h⟩ := h
    rw [exceptBind_ok_iff] at h
    obtain ⟨c2', hr, h⟩ := h
    simp only [pure, Except.pure, Except.ok.injEq, Prod.mk.injEq] at h
    obtain ⟨hc, hfs⟩ := h
    subst hc
    subst hfs
    exact ⟨hw, hr⟩

/-- The bijection for a single constructed value. -/
theorem keysEq_of_mk {cwd : List String} {nl : JulesNamelists}
    {subdir : String} {inputs : List (String × JulesInput)} {c : JulesConfig}
    (h : mkJulesConfig cwd nl subdir inputs = .ok c) :
    c.inputs.map Prod.fst = (input_files c.namelists true).map renderPath := by
  obtain ⟨hnl, _, hinp, _, hkeys⟩ := mkJulesConfig_ok_inv h
  rw [hinp, hnl, hkeys]

/-- **C2** (confirmed).  For every constructed configuration (the
`__post_init__` assert), for every configuration produced by `read`, by
`write` (which ends in a re-read), and after `_detach`, the key set of the
inputs registry is exactly the set of relative file-path strings derived
from the parameter set. -/
theorem c2_binding_keys_bijection :
    (∀ (cwd : List String) (nl : JulesNamelists) (subdir : String)
        (inputs : List (String × JulesInput)) (c : JulesConfig),
      mkJulesConfig cwd nl subdir inputs = .ok c →
      (∀ s, s ∈ c.inputs.map Prod.fst ↔
          s ∈ (input_files c.namelists true).map renderPath)
        ∧ (∀ s, s ∈ (configDetach c).inputs.map Prod.fst ↔
            s ∈ (input_files (configDetach c).namelists true).map renderPath))
    ∧ (∀ (cwd : List String) (fs : FS) (root : FPath) (sd : Option String)
        (c : JulesConfig),
      configRead cwd fs root sd = .ok c →
      ∀ s, s ∈ c.inputs.map Prod.fst ↔
          s ∈ (input_files c.namelists true).map renderPath)
    ∧ (∀ (cwd : List String) (fs : FS) (c : JulesConfig) (dest : FPath)
        (ow : Bool) (c2 : JulesConfig) (fs2 : FS),
      configWrite cwd fs c dest ow = .ok (c2, fs2) →
      ∀ s, s ∈ c2.inputs.map Prod.fst ↔
          s ∈ (input_files c2.namelists true).map renderPath) := by
  have hdetkeys : ∀ c : JulesConfig,
      (configDetach c).inputs.map Prod.fst = c.inputs.map Prod.fst := by
    intro c
    simp [configDetach, List.map_map]
  have hdetfiles : ∀ c : JulesConfig,
      input_files (configDetach c).namelists true
        = input_files c.namelists true := fun _ => rfl
  refine ⟨?_, ?_, ?_⟩
  · intro cwd nl subdir inputs c h
    constructor
    · intro s; rw [keysEq_of_mk h]
    · intro s; rw [hdetkeys, hdetfiles, keysEq_of_mk h]
  · intro cwd fs root sd c h
    obtain ⟨nl, subdir, inputs, c0, hmk, hc⟩ := configRead_ok_inv h
    subst hc
    intro s
    show s ∈ c0.inputs.map Prod.fst ↔ _
    rw [keysEq_of_mk hmk]
  · intro cwd fs c dest ow c2 fs2 h
    obtain ⟨_, hr⟩ := configWrite_ok_inv h
    obtain ⟨nl, subdir, inputs, c0, hmk, hc⟩ := configRead_ok_inv hr
    subst hc
    intro s
    show s ∈ c0.inputs.map Prod.fst ↔ _
    rw [keysEq_of_mk hmk]

/-- Witness for C2: the bijection at the concretely constructed fixture
configuration, instantiated at its single key. -/
theorem c2_binding_keys_bijection_witness :
    "inputs/data.dat" ∈ relConfigVal.inputs.map Prod.fst
      ↔ "inputs/data.dat"
          ∈ (input_files relConfigVal.namelists true).map renderPath :=
  (c2_binding_keys_bijection.1 cwd0 relNamelists "namelists"
      [("inputs/data.dat", sampleAsciiInput)] relConfigVal
      (by with_unfolding_all rfl)).1 "inputs/data.dat"

/-- Folding the normaliser over dot-dot-free components just appends them. -/
theorem normalizeFold_append (l : List String) : ∀ acc : List String,
    (∀ x ∈ l, x ≠ "..") →
    l.foldl (fun acc c => if c = ".." then acc.dropLast else acc ++ [c]) acc
      = acc ++ l := by
  induction l with
  | nil => intro acc _; simp
  | cons c cs ih =>
    intro acc hl
    have hc : c ≠ ".." := hl c (List.mem_cons_self _ _)
    simp only [List.foldl_cons, if_neg hc]
    rw [ih (acc ++ [c]) (fun x hx => hl x (List.mem_cons_of_mem _ hx))]
    simp

/-- The normaliser never emits a `".."` component. -/
theorem noDotDot_normalizeParts (l : List String) :
    ∀ x ∈ normalizeParts l, x ≠ ".." := by
  have haux : ∀ (l acc : List String), (∀ x ∈ acc, x ≠ "..") →
      ∀ x ∈ l.foldl
        (fun acc c => if c = ".." then acc.dropLast else acc ++ [c]) acc,
        x ≠ ".." := by
    intro l
    induction l with
    | nil => intro acc hacc; simpa using hacc
    | cons c cs ih =>
      intro acc hacc
      simp only [List.foldl_cons]
      by_cases hc : c = ".."
      · rw [if_pos hc]
        exact ih _ (fun x hx => hacc x (List.Sublist.mem hx (List.dropLast_sublist acc)))
      · rw [if_neg hc]
        refine ih _ (fun x hx => ?_)
        rcases List.mem_append.mp hx with hx | hx
        · exact hacc x hx
        · rw [List.mem_singleton.mp hx]; exact hc
  exact haux l [] (by simp)

/-- Normalisation is idempotent. -/
theorem normalizeParts_idem (l : List String) :
    normalizeParts (normalizeParts l) = normalizeParts l := by
  have h := normalizeFold_append (normalizeParts l) [] (noDotDot_normalizeParts l)
  simpa [normalizeParts] using h

/-- `resolve` produces normalised components. -/
theorem normalizeParts_resolveParts (cwd : List String) (p : FPath) :
    normalizeParts (resolveParts cwd p) = resolveParts cwd p := by
  unfold resolveParts
  split <;> exact normalizeParts_idem _

/-- `resolve` of an already-resolved absolute path is itself. -/
theorem resolveParts_abs_resolved (cwd cwd' : List String) (p : FPath) :
    resolveParts cwd { absolute := true, parts := resolveParts cwd' p }
      = resolveParts cwd' p := by
  show normalizeParts (resolveParts cwd' p) = resolveParts cwd' p
  exact normalizeParts_resolveParts cwd' p

theorem writeNmlFiles_frame {dirAbs : List String} {force : Bool} :
    ∀ (entries : List (String × Namelist)) (fs fs' : FS),
    writeNmlFiles fs dirAbs entries force = .ok fs' →
    ∀ q, ¬ (dirAbs <+: q) → fs'.lookup q = fs.lookup q := by
  intro entries
  induction entries with
  | nil =>
    intro fs fs' h q _
    injection h with h
    rw [h]
  | cons e rest ih =>
    intro fs fs' h q hq
    simp only [writeNmlFiles] at h
    split at h
    · exact Except.noConfusion h
    · rw [ih _ _ h q hq, FS.lookup_insert_ne]
      intro hqe
      exact hq (hqe ▸ ⟨[e.1 ++ ".nml"], rfl⟩)

theorem writeNmlFiles_isSome_mono {dirAbs : List String} {force : Bool} :
    ∀ (entries : List (String × Namelist)) (fs fs' : FS),
    writeNmlFiles fs dirAbs entries force = .ok fs' →
    ∀ q, (fs.lookup q).isSome = true → (fs'.lookup q).isSome = true := by
  intro entries
  induction entries with
  | nil =>
    intro fs fs' h q hx
    injection h with h
    rw [← h]; exact hx
  | cons e rest ih =>
    intro fs fs' h q hx
    simp only [writeNmlFiles] at h
    split at h
    · exact Except.noConfusion h
    · exact ih _ _ h q (FS.lookup_insert_isSome_mono _ _ _ _ hx)

theorem writeNmlFiles_targets {dirAbs : List String} {force : Bool} :
    ∀ (entries : List (String × Namelist)) (fs fs' : FS),
    writeNmlFiles fs dirAbs entries force = .ok fs' →
    ∀ e ∈ entries, ((fs'.lookup (dirAbs ++ [e.1 ++ ".nml"])).isSome) = true := by
  intro entries
  induction entries with
  | nil => intro fs fs' _ e he; exact absurd he (List.not_mem_nil e)
  | cons e0 rest ih =>
    intro fs fs' h e he
    simp only [writeNmlFiles] at h
    split at h
    · exact Except.noConfusion h
    · rcases List.mem_cons.mp he with rfl | he'
      · refine writeNmlFiles_isSome_mono rest _ _ h _ ?_
        rw [FS.lookup_insert]; rfl
      · exact ih _ _ h e he'

theorem strAppend_right_cancel {a b c : String} (h : a ++ c = b ++ c) :
    a = b := by
  cases a with
  | mk da =>
    cases b with
    | mk db =>
      cases c with
      | mk dc =>
        have h' : da ++ dc = db ++ dc := congrArg String.data h
        exact congrArg String.mk (List.append_cancel_right h')

theorem writeNmlFiles_frame_at {dirAbs q : List String} {force : Bool} :
    ∀ (entries : List (String × Namelist)) (fs fs' : FS),
    writeNmlFiles fs dirAbs entries force = .ok fs' →
    (∀ e ∈ entries, dirAbs ++ [e.1 ++ ".nml"] ≠ q) →
    fs'.lookup q = fs.lookup q := by
  intro entries
  induction entries with
  | nil =>
    intro fs fs' h _
    injection h with h
    rw [h]
  | cons e rest ih =>
    intro fs fs' h hne
    simp only [writeNmlFiles] at h
    split at h
    · exact Except.noConfusion h
    · rw [ih _ _ h (fun x hx => hne x (List.mem_cons_of_mem _ hx)),
        FS.lookup_insert_ne]
      exact fun hqe => (hne e (List.mem_cons_self _ _)) hqe.symm

/-- After a successful namelist-file loop, each written file holds its
namelist verbatim (for distinct field names). -/
theorem writeNmlFiles_lookup {dirAbs : List String} {force : Bool} :
    ∀ (entries : List (String × Namelist)) (fs fs' : FS),
    writeNmlFiles fs dirAbs entries force = .ok fs' →
    (entries.map Prod.fst).Nodup →
    ∀ name n, (name, n) ∈ entries →
    fs'.lookup (dirAbs ++ [name ++ ".nml"]) = some (.nml n) := by
  intro entries
  induction entries with
  | nil => intro fs fs' _ _ name n hmem; exact absurd hmem (List.not_mem_nil _)
  | cons e rest ih =>
    intro fs fs' h hnodup name n hmem
    simp only [writeNmlFiles] at h
    split at h
    · exact Except.noConfusion h
    · rcases List.mem_cons.mp hmem with rfl | hmem'
      · rw [writeNmlFiles_frame_at rest _ _ h ?hne, FS.lookup_insert]
        case hne =>
          intro x hx hxq
          have hfst : x.1 ≠ name := by
            intro hx1
            have : name ∈ rest.map Prod.fst := hx1 ▸ List.mem_map_of_mem Prod.fst hx
            exact (List.nodup_cons.mp (by simpa using hnodup)).1 this
          apply hfst
          have := List.append_cancel_left hxq
          exact strAppend_right_cancel (by simpa using this)
      · exact ih _ _ h (List.Nodup.of_cons hnodup) name n hmem'

/-- No single-binding write ever succeeds: both input classes raise
`TypeError` from the call mismatch before anything is written. -/
theorem julesInputWrite_not_ok {fs : FS} {full : List String}
    {obj : JulesInput} {ow : Bool} {fs' : FS} :
    julesInputWrite fs full obj ow ≠ .ok fs' := by
  intro h
  cases obj with
  | ascii data comment pth =>
    simp only [julesInputWrite] at h
    split at h
    · exact Except.noConfusion h
    · exact Except.noConfusion h
  | netcdf dataOpt pth => exact Except.noConfusion h

/-- Inversion of the binding-write loop: it can only succeed when there is
no relative binding to write, leaving the filesystem unchanged (any actual
binding write raises `TypeError`). -/
theorem inputsWriteFold_ok_inv {c : JulesConfig} {destAbs : List String}
    {ow : Bool} :
    ∀ (paths : List FPath) (fs fs' : FS),
    inputsWriteFold fs c destAbs ow paths = .ok fs' →
    paths = [] ∧ fs' = fs := by
  intro paths fs fs' h
  cases paths with
  | nil =>
    injection h with h
    exact ⟨rfl, h.symm⟩
  | cons p rest =>
    simp only [inputsWriteFold] at h
    split at h
    case h_1 =>
      rw [exceptBind_ok_iff] at h
      obtain ⟨a, ha, _⟩ := h
      exact Except.noConfusion ha
    case h_2 =>
      rw [exceptBind_ok_iff] at h
      obtain ⟨obj, _, h⟩ := h
      rw [exceptBind_ok_iff] at h
      obtain ⟨fs1, hw, _⟩ := h
      exact absurd hw julesInputWrite_not_ok

/-- Inversion of the public namelists write: success means the file loop
succeeded on the same filesystem result (the re-read does not modify it). -/
theorem julesNamelistsWrite_ok_inv {cwd : List String} {fs : FS}
    {nl : JulesNamelists} {dir : FPath} {ow : Bool} {nl' : JulesNamelists}
    {fs' : FS} (h : julesNamelistsWrite cwd fs nl dir ow = .ok (nl', fs')) :
    writeNmlFiles fs (resolveParts cwd dir) nl.entries ow = .ok fs' := by
  simp only [julesNamelistsWrite] at h
  split at h
  · exact Except.noConfusion h
  · rw [exceptBind_ok_iff] at h
    obtain ⟨fs1, hw, h⟩ := h
    rw [exceptBind_ok_iff] at h
    obtain ⟨nl1, _, h⟩ := h
    simp only [pure, Except.pure, Except.ok.injEq, Prod.mk.injEq] at h
    rw [← h.2]
    exact hw

/-- Inversion of `JulesConfig._write`: the namelist-file loop then the
binding loop. -/
theorem configUnderWrite_ok_inv {cwd : List String} {fs : FS}
    {c : JulesConfig} {destAbs : List String} {ow : Bool} {fs2 : FS}
    (h : configUnderWrite cwd fs c destAbs ow = .ok fs2) :
    ∃ fs1,
      writeNmlFiles fs
          (normalizeParts (destAbs ++ (parsePath c.namelists_subdir).parts))
          c.namelists.entries ow = .ok fs1
        ∧ inputsWriteFold fs1 c destAbs ow (input_files c.namelists true)
            = .ok fs2 := by
  simp only [configUnderWrite] at h
  rw [exceptBind_ok_iff] at h
  obtain ⟨⟨nl1, fs1⟩, hw, h⟩ := h
  split at h
  · exact Except.noConfusion h
  · exact ⟨fs1, julesNamelistsWrite_ok_inv hw, h⟩

/-- Splitting on a separator yields pieces free of the separator. -/
theorem splitCharsOn_no_sep (sep : Char) :
    ∀ (cs : List Char), ∀ piece ∈ splitCharsOn sep cs, sep ∉ piece := by
  intro cs
  induction cs with
  | nil =>
    intro piece hp
    rw [List.mem_singleton.mp hp]
    exact List.not_mem_nil sep
  | cons c cs ih =>
    intro piece hp
    simp only [splitCharsOn] at hp
    split at hp
    · rcases List.mem_cons.mp hp with rfl | hp'
      · exact List.not_mem_nil sep
      · exact ih piece hp'
    · split at hp
      case isFalse.h_1 hrest =>
        rw [List.mem_singleton.mp hp]
        intro hmem
        rcases List.mem_singleton.mp hmem with rfl
        simp_all
      case isFalse.h_2 c' r more hrest =>
        rcases List.mem_cons.mp hp with rfl | hp'
        · intro hmem
          rcases List.mem_cons.mp hmem with rfl | hmem'
          · simp_all
          · exact ih r (hrest ▸ List.mem_cons_self r more) hmem'
        · exact ih piece (hrest ▸ List.mem_cons_of_mem r hp')

/-- The components produced by parsing a path string are nonempty and free
of `'/'`. -/
theorem parsePath_parts_clean (s : String) :
    ∀ part ∈ (parsePath s).parts, part ≠ "" ∧ '/' ∉ part.data := by
  intro part hp
  simp only [parsePath] at hp
  rw [List.mem_filter] at hp
  obtain ⟨hmem, hcond⟩ := hp
  obtain ⟨piece, hpiece, rfl⟩ := List.mem_map.mp hmem
  refine ⟨by simpa using (Bool.and_eq_true_iff.mp hcond).1, ?_⟩
  exact splitCharsOn_no_sep '/' s.data piece hpiece

/-- Rendering a relative path whose components are clean never yields a
string starting with `'/'`. -/
theorem renderPath_rel_no_slash (p : FPath) (habs : p.absolute = false)
    (hclean : ∀ part ∈ p.parts, part ≠ "" ∧ '/' ∉ part.data) :
    strStartsWith (renderPath p) "/" = false := by
  unfold renderPath
  rw [habs]
  simp only [Bool.false_eq_true, if_false]
  cases hp : p.parts with
  | nil => rw [if_pos rfl]; rfl
  | cons a rest =>
    rw [if_neg (by simp)]
    obtain ⟨hne, hslash⟩ := hclean a (hp ▸ List.mem_cons_self a rest)
    have hdata : ∃ ch tl, a.data = ch :: tl ∧ ch ≠ '/' := by
      cases hd : a.data with
      | nil =>
        refine absurd ?_ hne
        cases a with
        | mk da =>
          simp only at hd
          rw [hd]
      | cons ch tl =>
        refine ⟨ch, tl, rfl, fun hch => ?_⟩
        rw [hd] at hslash
        exact hslash (hch ▸ List.mem_cons_self ch tl)
    obtain ⟨ch, tl, hd, hch⟩ := hdata
    have hjoin : ∃ t, joinPartsChars (a :: rest) = ch :: (tl ++ t) := by
      cases rest with
      | nil => exact ⟨[], by simp [joinPartsChars, hd]⟩
      | cons b more => exact ⟨'/' :: joinPartsChars (b :: more),
          by simp [joinPartsChars, hd]⟩
    obtain ⟨t, hj⟩ := hjoin
    rw [hj]
    show (List.isPrefixOf ['/'] (ch :: (tl ++ t))) = false
    simp [List.isPrefixOf, hch, Ne.symm hch]

/-- Every relative input-file path is a non-absolute parsed path. -/
theorem mem_input_files_rel {nl : JulesNamelists} {p : FPath}
    (h : p ∈ input_files nl true) :
    p.absolute = false ∧ ∃ s, p = parsePath s := by
  simp only [input_files, if_pos rfl, if_true] at h
  rw [List.mem_filter] at h
  obtain ⟨hmem, hrel⟩ := h
  refine ⟨by simpa using hrel, ?_⟩
  rw [List.mem_dedup] at hmem
  obtain ⟨kv, _, hq⟩ := List.mem_map.mp hmem
  exact ⟨valueStr kv.2, hq.symm⟩

/-- **C4** (confirmed).  An absolute file-parameter path is never bound: it
never appears among the registry keys of a read configuration.  A write can
only complete when the configuration has no relative bindings at all (any
per-binding write raises `TypeError`), and a completed write touches only
files under the destination (so a file referenced by an absolute path
outside it is untouched) and writes the namelist parameter values — the
absolute path string included — verbatim. -/
theorem c4_absolute_paths_never_bound :
    (∀ (cwd : List String) (fs : FS) (root : FPath) (sd : Option String)
        (c : JulesConfig),
      configRead cwd fs root sd = .ok c →
      ∀ s, strStartsWith s "/" = true → s ∉ c.inputs.map Prod.fst)
    ∧ (∀ (cwd : List String) (fs : FS) (c : JulesConfig) (dest : FPath)
        (ow : Bool) (c2 : JulesConfig) (fs2 : FS),
      configWrite cwd fs c dest ow = .ok (c2, fs2) →
      input_files c.namelists true = []
        ∧ ((resolveParts cwd dest
            <+: normalizeParts
              (resolveParts cwd dest
                ++ (parsePath c.namelists_subdir).parts)) →
          ∀ q, ¬ (resolveParts cwd dest <+: q) →
            fs2.lookup q = fs.lookup q))
    ∧ (∀ (cwd : List String) (fs : FS) (c : JulesConfig) (dest : FPath)
        (ow : Bool) (c2 : JulesConfig) (fs2 : FS) (name : String)
        (n : Namelist),
      configWrite cwd fs c dest ow = .ok (c2, fs2) →
      (c.namelists.entries.map Prod.fst).Nodup →
      (name, n) ∈ c.namelists.entries →
      fs2.lookup
          (normalizeParts
            (resolveParts cwd dest ++ (parsePath c.namelists_subdir).parts)
            ++ [name ++ ".nml"]) = some (.nml n)) := by
  refine ⟨?_, ?_, ?_⟩
  · intro cwd fs root sd c h s hs hmem
    obtain ⟨nl, subdir, inputs, c0, hmk, hc⟩ := configRead_ok_inv h
    subst hc
    have hkeys : c0.inputs.map Prod.fst
        = (input_files c0.namelists true).map renderPath := keysEq_of_mk hmk
    have hmem' : s ∈ (input_files c0.namelists true).map renderPath := by
      rw [← hkeys]; exact hmem
    obtain ⟨p, hp, hrender⟩ := List.mem_map.mp hmem'
    obtain ⟨habs, s', rfl⟩ := mem_input_files_rel hp
    have := renderPath_rel_no_slash (parsePath s') habs (parsePath_parts_clean s')
    rw [hrender] at this
    rw [this] at hs
    exact Bool.false_ne_true hs
  · intro cwd fs c dest ow c2 fs2 h
    obtain ⟨hw, _⟩ := configWrite_ok_inv h
    obtain ⟨fs1, hnml, hfold⟩ := configUnderWrite_ok_inv hw
    obtain ⟨hempty, hfs⟩ := inputsWriteFold_ok_inv _ _ _ hfold
    subst hfs
    refine ⟨hempty, fun hsub q hq => ?_⟩
    exact writeNmlFiles_frame _ _ _ hnml q
      (fun hpre => hq (hsub.trans hpre))
  · intro cwd fs c dest ow c2 fs2 name n h hnodup hmem
    obtain ⟨hw, _⟩ := configWrite_ok_inv h
    obtain ⟨fs1, hnml, hfold⟩ := configUnderWrite_ok_inv hw
    obtain ⟨_, hfs⟩ := inputsWriteFold_ok_inv _ _ _ hfold
    subst hfs
    exact writeNmlFiles_lookup _ _ _ hnml hnodup name n hmem

/-- Witness for C4: the absolute parameter value `/abs/path/data.nc` is not
a registry key of the read mixed fixture; and writing the absolute-only
fixture configuration (a genuinely completing write) to a fresh directory
leaves the externally referenced file untouched and writes its namelist —
absolute value included — verbatim. -/
theorem c4_absolute_paths_never_bound_witness :
    "/abs/path/data.nc" ∉ c4ConfigVal.inputs.map Prod.fst
      ∧ c4bWrittenVal.2.lookup ["abs", "path", "data.nc"]
          = fsC4b.lookup ["abs", "path", "data.nc"]
      ∧ c4bWrittenVal.2.lookup
          (normalizeParts
            (resolveParts cwd0 tmpC4
              ++ (parsePath c4bConfigVal.namelists_subdir).parts)
            ++ ["drive" ++ ".nml"]) = some (.nml driveNmlAbsOnly) :=
  ⟨c4_absolute_paths_never_bound.1 cwd0 fsC4
      { absolute := true, parts := rootC1 } (some "namelists") c4ConfigVal
      (by with_unfolding_all rfl) "/abs/path/data.nc" (by with_unfolding_all rfl),
   (c4_absolute_paths_never_bound.2.1 cwd0 fsC4b c4bConfigVal tmpC4 false
      c4bWrittenVal.1 c4bWrittenVal.2 (by with_unfolding_all rfl)).2
      (by with_unfolding_all decide)
      ["abs", "path", "data.nc"] (by with_unfolding_all decide),
   c4_absolute_paths_never_bound.2.2 cwd0 fsC4b c4bConfigVal tmpC4 false
      c4bWrittenVal.1 c4bWrittenVal.2 "drive" driveNmlAbsOnly
      (by with_unfolding_all rfl) (by with_unfolding_all decide)
      (by with_unfolding_all decide)⟩

/-- **C5** (corrected).  `write(dest, overwrite=false)` fails with
`FileExistsError` when the resolved destination is an existing plain file
(not "whenever the directory is non-empty" — see the counterexample; a
colliding individual target file likewise raises `FileExistsError` from the
per-file writes); and a successful write has created the namelists
subdirectory files and every relative binding under the destination and
returns a state attached to it. -/
theorem c5_write_exists_error_amended :
    (∀ (cwd : List String) (fs : FS) (c : JulesConfig) (dest : FPath),
      fs.isFile (resolveParts cwd dest) = true →
      configWrite cwd fs c dest false = .error .fileExistsError)
    ∧ (∀ (cwd : List String) (fs : FS) (c : JulesConfig) (dest : FPath)
        (ow : Bool) (c2 : JulesConfig) (fs2 : FS),
      configWrite cwd fs c dest ow = .ok (c2, fs2) →
      c2.path = some (resolveParts cwd dest)
        ∧ (∀ e ∈ c.namelists.entries,
          (fs2.lookup
            (normalizeParts
              (resolveParts cwd dest ++ (parsePath c.namelists_subdir).parts)
              ++ [e.1 ++ ".nml"])).isSome = true)
        ∧ (∀ p ∈ input_files c.namelists true,
          (fs2.lookup
            (normalizeParts (resolveParts cwd dest ++ p.parts))).isSome
            = true)) := by
  constructor
  · intro cwd fs c dest hfile
    simp [configWrite, hfile]
  · intro cwd fs c dest ow c2 fs2 h
    obtain ⟨hw, hr⟩ := configWrite_ok_inv h
    obtain ⟨fs1, hnml, hfold⟩ := configUnderWrite_ok_inv hw
    obtain ⟨hempty, hfs⟩ := inputsWriteFold_ok_inv _ _ _ hfold
    subst hfs
    refine ⟨?_, ?_, ?_⟩
    · obtain ⟨nl, subdir, inputs, c0, hmk, hc⟩ := configRead_ok_inv hr
      subst hc
      show some (resolveParts cwd
        { absolute := true, parts := resolveParts cwd dest })
          = some (resolveParts cwd dest)
      rw [resolveParts_abs_resolved]
    · intro e he
      exact writeNmlFiles_targets _ _ _ hnml e he
    · intro p hp
      rw [hempty] at hp
      exact absurd hp (List.not_mem_nil p)

/-- Witness for C5: the occupied-by-a-file destination raises
`FileExistsError`, and the successful non-empty-directory write is attached
with its `ancillaries.nml` present. -/
theorem c5_write_exists_error_amended_witness :
    configWrite cwd0 fsFileDest plainConfig
        { absolute := true, parts := ["home", "user", "target"] } false
      = .error .fileExistsError
      ∧ c5WrittenVal.1.path
          = some (resolveParts cwd0
              { absolute := true, parts := ["home", "user", "tmp2"] })
      ∧ (c5WrittenVal.2.lookup
          (normalizeParts
            (resolveParts cwd0
                { absolute := true, parts := ["home", "user", "tmp2"] }
              ++ (parsePath plainConfig.namelists_subdir).parts)
            ++ ["ancillaries" ++ ".nml"])).isSome = true :=
  ⟨c5_write_exists_error_amended.1 cwd0 fsFileDest plainConfig
      { absolute := true, parts := ["home", "user", "target"] }
      (by with_unfolding_all rfl),
   (c5_write_exists_error_amended.2 cwd0 fsNonEmptyDest plainConfig
      { absolute := true, parts := ["home", "user", "tmp2"] } false
      c5WrittenVal.1 c5WrittenVal.2 (by with_unfolding_all rfl)).1,
   (c5_write_exists_error_amended.2 cwd0 fsNonEmptyDest plainConfig
      { absolute := true, parts := ["home", "user", "tmp2"] } false
      c5WrittenVal.1 c5WrittenVal.2 (by with_unfolding_all rfl)).2.1
     ("ancillaries", plainNml) (by with_unfolding_all decide)⟩

/-- Membership in the computed candidate list is exactly the semantic
candidate property. -/
theorem mem_findCandidates (fs : FS) (root d : List String) :
    d ∈ findCandidates fs root ↔ isNamelistDirCandidate fs root d := by
  unfold findCandidates isNamelistDirCandidate
  rw [List.mem_filterMap]
  constructor
  · rintro ⟨e, _, hcond⟩
    split at hcond
    case isTrue hc =>
      injection hcond with hcond
      subst hcond
      obtain ⟨⟨_, hpre⟩, hall⟩ :
          (e.1.getLast? = some "ancillaries.nml" ∧ root <+: e.1.dropLast)
            ∧ allNamelistFilesExist fs e.1.dropLast = true := by simpa using hc
      exact ⟨hpre, hall⟩
    case isFalse => exact Option.noConfusion hcond
  · rintro ⟨hpre, hall⟩
    have hanc : fs.isFile (d ++ ["ancillaries.nml"]) = true := by
      have := List.all_eq_true.mp hall "ancillaries" (by decide)
      simpa using this
    obtain ⟨e, he, hep⟩ : ∃ e ∈ fs.files, e.1 = d ++ ["ancillaries.nml"] := by
      unfold FS.isFile FS.lookup at hanc
      cases hfind : fs.files.find? (fun e => e.1 = d ++ ["ancillaries.nml"]) with
      | none => rw [hfind] at hanc; simp at hanc
      | some e =>
        exact ⟨e, List.mem_of_find?_eq_some hfind,
          by simpa using List.find?_some hfind⟩
    refine ⟨e, he, ?_⟩
    rw [hep, if_pos ?_]
    · rw [List.dropLast_concat]
    · simp only [List.getLast?_concat, List.dropLast_concat]
      refine Bool.and_eq_true_iff.mpr ⟨Bool.and_eq_true_iff.mpr ⟨by simp, ?_⟩, hall⟩
      exact List.isPrefixOf_iff_prefix.mpr hpre

/-- The filter-style projection of the candidate entries is a sublist of the
filesystem's path list. -/
theorem filterMapIf_fst_sublist (cond : (List String × FileData) → Bool) :
    ∀ l : List (List String × FileData),
    List.Sublist
      (l.filterMap (fun e => if cond e then some e.1 else none))
      (l.map Prod.fst) := by
  intro l
  induction l with
  | nil => exact List.Sublist.refl _
  | cons e rest ih =>
    rw [List.map_cons]
    by_cases hc : cond e = true
    · have he : (fun e => if cond e then some e.1 else none) e = some e.1 := by
        simp [hc]
      simp only [List.filterMap_cons, he]
      exact List.Sublist.cons₂ _ ih
    · have he : (fun e => if cond e then some e.1 else none) e = none := by
        simp [hc]
      simp only [List.filterMap_cons, he]
      exact List.Sublist.cons _ ih

/-- Under a well-formed filesystem (no duplicate paths), the candidate list
has no duplicates. -/
theorem findCandidates_nodup (fs : FS) (root : List String)
    (hwf : (fs.files.map Prod.fst).Nodup) :
    (findCandidates fs root).Nodup := by
  have hmapeq : (findCandidates fs root).map (fun d => d ++ ["ancillaries.nml"])
      = fs.files.filterMap
          (fun e =>
            if e.1.getLast? = some "ancillaries.nml"
                && root.isPrefixOf e.1.dropLast
                && allNamelistFilesExist fs e.1.dropLast then
              some e.1
            else none) := by
    unfold findCandidates
    rw [List.map_filterMap]
    apply List.filterMap_congr
    intro e _
    by_cases hc : (e.1.getLast? = some "ancillaries.nml"
        && root.isPrefixOf e.1.dropLast
        && allNamelistFilesExist fs e.1.dropLast) = true
    · rw [if_pos hc, if_pos hc]
      show some (e.1.dropLast ++ ["ancillaries.nml"]) = some e.1
      obtain ⟨⟨hlast, _⟩, _⟩ :
          (e.1.getLast? = some "ancillaries.nml" ∧ root <+: e.1.dropLast)
            ∧ allNamelistFilesExist fs e.1.dropLast = true := by simpa using hc
      have hne : e.1 ≠ [] := by
        intro hz
        rw [hz] at hlast
        simp at hlast
      have hdecomp : e.1.dropLast ++ [e.1.getLast hne] = e.1 :=
        List.dropLast_append_getLast hne
      have hlastval : e.1.getLast hne = "ancillaries.nml" := by
        have := List.getLast?_eq_getLast e.1 hne
        rw [this] at hlast
        exact Option.some_injective _ (by simpa using hlast)
      rw [← hlastval]
      rw [hdecomp]
    · rw [if_neg hc, if_neg hc]
      rfl
  have hnodup' : ((findCandidates fs root).map
      (fun d => d ++ ["ancillaries.nml"])).Nodup := by
    rw [hmapeq]
    exact List.Nodup.sublist (filterMapIf_fst_sublist _ fs.files) hwf
  exact List.Nodup.of_map _ hnodup'

/-- **C9** (confirmed).  Auto-discovery returns the unique subdirectory
containing all schema namelist files when exactly one exists, fails with
`FileNotFoundError` (the spec's `NotFound`) when none exists, and fails with
the code's bare `Exception` (the spec's `AmbiguousLocation`) when more than
one exists — it never silently picks the first match. -/
theorem c9_find_namelists_discovery (fs : FS) (root : List String)
    (hwf : (fs.files.map Prod.fst).Nodup) :
    ((¬ ∃ d, isNamelistDirCandidate fs root d) →
        find_namelists fs root = .error .fileNotFoundError)
    ∧ (∀ d, isNamelistDirCandidate fs root d →
        (∀ d', isNamelistDirCandidate fs root d' → d' = d) →
        find_namelists fs root = .ok (renderRelTo d root))
    ∧ (∀ d₁ d₂, isNamelistDirCandidate fs root d₁ →
        isNamelistDirCandidate fs root d₂ → d₁ ≠ d₂ →
        find_namelists fs root = .error .ambiguousLocation) := by
  refine ⟨?_, ?_, ?_⟩
  · intro hnone
    cases hc : findCandidates fs root with
    | nil => unfold find_namelists; rw [hc]
    | cons d t =>
      exact absurd ⟨d, (mem_findCandidates fs root d).mp
        (hc ▸ List.mem_cons_self d t)⟩ hnone
  · intro d hd huniq
    have hmem : d ∈ findCandidates fs root :=
      (mem_findCandidates _ _ _).mpr hd
    have hall : ∀ x ∈ findCandidates fs root, x = d :=
      fun x hx => huniq x ((mem_findCandidates _ _ _).mp hx)
    have hnodup := findCandidates_nodup fs root hwf
    have hsingle : findCandidates fs root = [d] := by
      cases hc : findCandidates fs root with
      | nil => rw [hc] at hmem; exact absurd hmem (List.not_mem_nil d)
      | cons a t =>
        rw [hc] at hmem hall hnodup
        have ha : a = d := hall a (List.mem_cons_self a t)
        subst ha
        cases t with
        | nil => rfl
        | cons b t' =>
          have hb : b = a := hall b (List.mem_cons_of_mem _
            (List.mem_cons_self b t'))
          have hnotin := (List.nodup_cons.mp hnodup).1
          exact absurd (hb ▸ List.mem_cons_self b t') hnotin
    unfold find_namelists
    rw [hsingle]
  · intro d₁ d₂ h₁ h₂ hne
    have hm₁ := (mem_findCandidates _ _ _).mpr h₁
    have hm₂ := (mem_findCandidates _ _ _).mpr h₂
    cases hc : findCandidates fs root with
    | nil => rw [hc] at hm₁; exact absurd hm₁ (List.not_mem_nil _)
    | cons a t =>
      cases t with
      | nil =>
        rw [hc] at hm₁ hm₂
        exact absurd ((List.mem_singleton.mp hm₁).trans
          (List.mem_singleton.mp hm₂).symm) hne
      | cons b t' =>
        unfold find_namelists
        rw [hc]

/-- Witness for C9: on the round-trip fixture, the unique candidate
`run1/namelists` is discovered. -/
theorem c9_find_namelists_discovery_witness :
    find_namelists fsC1 rootC1
      = .ok (renderRelTo (rootC1 ++ ["namelists"]) rootC1) :=
  (c9_find_namelists_discovery fsC1 rootC1
      (by with_unfolding_all decide)).2.1
    (rootC1 ++ ["namelists"])
    ⟨by with_unfolding_all decide, by with_unfolding_all rfl⟩
    (fun d' hd' => by
      have hmem := (mem_findCandidates fsC1 rootC1 d').mpr hd'
      rw [show findCandidates fsC1 rootC1 = [rootC1 ++ ["namelists"]] from
        by with_unfolding_all rfl] at hmem
      simpa using hmem)

end JulesPytk
